import Mathlib

/-!
Verification development for the sight-reading assessment engine
(performance tracker, rhythm quantizer, articulation detector and
end-of-performance assessment).  Real-valued audio quantities are
modelled over `ℚ`; JavaScript `Math.round` is `⌊x + 1/2⌋`; `Math.floor`
is `Int.floor`.  The `Math.sqrt` call inside the assessment (standard
deviations) has irrational values, so the assessment is parameterized
by the square-root function `sqrtFn`; every theorem holds for all
`sqrtFn`, in particular for the true square root.  The Hz→MIDI
conversion `hzToMidi` (a rounded base-2 logarithm) is likewise
irrational-valued; frames deliver the already-rounded MIDI number and
the tracker applies its transposition to it, exactly as the source
adds `transposeSemitones` after `hzToMidi`.
-/

namespace Sightreed

/-- JavaScript `Math.round`: round half toward positive infinity. -/
def jsRound (x : ℚ) : ℤ := ⌊x + 1/2⌋

/-- `Math.round(x * 100) / 100`: round to 2 decimals. -/
def round2 (x : ℚ) : ℚ := (jsRound (x * 100) : ℚ) / 100

/-- `Math.round(x * 10) / 10`: round to 1 decimal. -/
def round1 (x : ℚ) : ℚ := (jsRound (x * 10) : ℚ) / 10

/-- `Math.round(x * 10000) / 100`: fraction to percentage with 2 decimals. -/
def roundPct (x : ℚ) : ℚ := (jsRound (x * 10000) : ℚ) / 100

/-! ### notation.ts: durations, pitch spelling, events, scores -/

/-- Durations handled by `durToTicks` (the source's `Duration` type also
lists a sixteenth `"16"`, but `durToTicks` has no case for it and no
generator emits it, so it is omitted). -/
inductive Duration
  | q | e8 | qDot | e8Dot | e8t | h | hDot
deriving DecidableEq

def TICKS_PER_QUARTER : ℤ := 48

def durToTicks : Duration → ℤ
  | Duration.q => 48
  | Duration.e8 => 24
  | Duration.qDot => 72
  | Duration.e8Dot => 36
  | Duration.e8t => 16
  | Duration.h => 96
  | Duration.hDot => 144

inductive Step
  | C | D | E | F | G | A | B
deriving DecidableEq

def stepBase : Step → ℤ
  | Step.C => 0
  | Step.D => 2
  | Step.E => 4
  | Step.F => 5
  | Step.G => 7
  | Step.A => 9
  | Step.B => 11

structure PitchSpelling where
  step : Step
  alter : ℤ
  octave : ℤ
deriving DecidableEq

def pitchToMidi (p : PitchSpelling) : ℤ :=
  (p.octave + 1) * 12 + stepBase p.step + p.alter

inductive Event
  | note (pitch : PitchSpelling) (dur : Duration) (tiedTo : Bool) (tiedFrom : Bool)
  | rest (dur : Duration)
deriving DecidableEq

def Event.dur : Event → Duration
  | Event.note _ d _ _ => d
  | Event.rest d => d

structure Measure where
  events : List Event
deriving DecidableEq

structure Score where
  measures : List Measure
deriving DecidableEq

/-- The nested measure/event loops of the source walk events in this
flattened order, accumulating tick offsets. -/
def scoreEvents (s : Score) : List Event :=
  s.measures.flatMap Measure.events

/-! ### performanceTracker.ts -/

inductive EKind
  | note | rest
deriving DecidableEq

structure ExpectedState where
  kind : Option EKind
  pitch : Option ℤ
deriving DecidableEq

/-- `getExpectedStateAtTick`'s loop: walk events accumulating `cur`;
the event containing `tick` (i.e. `cur ≤ tick < cur + duration`)
determines the expected state; past the end both fields are `none`. -/
def expectedAtAux : List Event → ℤ → ℤ → ExpectedState
  | [], _, _ => ⟨none, none⟩
  | e :: evs, cur, tick =>
    if cur ≤ tick ∧ tick < cur + durToTicks e.dur then
      match e with
      | Event.note p _ _ _ => ⟨some EKind.note, some (pitchToMidi p)⟩
      | Event.rest _ => ⟨some EKind.rest, none⟩
    else expectedAtAux evs (cur + durToTicks e.dur) tick

def getExpectedStateAtTick (s : Score) (tick : ℤ) : ExpectedState :=
  expectedAtAux (scoreEvents s) 0 tick

/-- `TickState`: one tick-log entry.  `centroid`/`hnr` are optional in
the source type but the tracker always sets them, so they are plain
fields here. -/
structure TickState where
  tick : ℤ
  rawTick : ℤ
  expectedKind : Option EKind
  expectedPitch : Option ℤ
  actualPitch : Option ℤ
  actualRMS : ℚ
  isCorrect : Bool
  centroid : ℚ
  hnr : ℚ
deriving DecidableEq

structure TrackerConfig where
  score : Score
  tempo : ℚ
  transposeSemitones : ℤ
  calibratedLatencyMs : ℚ

def msPerTick (tempo : ℚ) : ℚ := (60000 / tempo) / 48

def calibratedLatencyTicks (cfg : TrackerConfig) : ℤ :=
  jsRound (cfg.calibratedLatencyMs / msPerTick cfg.tempo)

structure TrackerState where
  hasStarted : Bool
  currentTick : ℤ
  firstNoteOffsetTicks : Option ℤ
  firstSoundDetectedTick : Option ℤ
  currentCentroid : ℚ
  currentHNR : ℚ
  stateHistory : List TickState
deriving DecidableEq

/-- Field initialization of the class constructor. -/
def TrackerState.init : TrackerState :=
  ⟨false, 0, none, none, 0, 0, []⟩

/-- `start()`: reset counter, latency fine-offset and log (the cached
spectral readings are not reset by `start()`). -/
def trackerStart (s : TrackerState) : TrackerState :=
  { s with hasStarted := true, currentTick := 0, firstNoteOffsetTicks := none,
           firstSoundDetectedTick := none, stateHistory := [] }

/-- `updateSpectral(centroid, hnr)`. -/
def updateSpectral (s : TrackerState) (centroid hnr : ℚ) : TrackerState :=
  { s with currentCentroid := centroid, currentHNR := hnr }

/-- Raw tick: `Math.floor(elapsedMs / msPerTick)`. -/
def rawTickOf (cfg : TrackerConfig) (elapsedMs : ℚ) : ℤ :=
  ⌊elapsedMs / msPerTick cfg.tempo⌋

/-- Stage-1 adjusted tick: raw tick minus calibrated latency ticks. -/
def adjustedTickOf (cfg : TrackerConfig) (elapsedMs : ℚ) : ℤ :=
  rawTickOf cfg elapsedMs - calibratedLatencyTicks cfg

def SNAP_THRESHOLD : ℤ := 30

/-- Stage-2 fine offset after this frame: on the first detected sound
(`firstNoteOffsetTicks` still unset, pitch present, `rms > 0.02`) the
adjusted tick is frozen when it lies in `[0, 30]`, and `0` is frozen
when it is negative (early) or above 30 (late); otherwise the stored
offset is kept. -/
def stage2Offset (cfg : TrackerConfig) (s : TrackerState) (elapsedMs : ℚ)
    (pitch : Option ℤ) (rms : ℚ) : Option ℤ :=
  if s.firstNoteOffsetTicks = none ∧ pitch ≠ none ∧ rms > 0.02 then
    (if 0 ≤ adjustedTickOf cfg elapsedMs ∧ adjustedTickOf cfg elapsedMs ≤ SNAP_THRESHOLD
     then some (adjustedTickOf cfg elapsedMs)
     else some 0)
  else s.firstNoteOffsetTicks

/-- Corrected tick recorded by this frame: adjusted tick minus the
(possibly just frozen) Stage-2 offset. -/
def correctedTickOf (cfg : TrackerConfig) (s : TrackerState) (elapsedMs : ℚ)
    (pitch : Option ℤ) (rms : ℚ) : ℤ :=
  match stage2Offset cfg s elapsedMs pitch rms with
  | some o => adjustedTickOf cfg elapsedMs - o
  | none => adjustedTickOf cfg elapsedMs

/-- The transposed actual MIDI pitch:
`hzToMidi(pitch) + transposeSemitones` (with `pitch` delivered as the
rounded MIDI number). -/
def actualPitchMidiOf (cfg : TrackerConfig) (pitch : Option ℤ) : Option ℤ :=
  pitch.map (fun m => m + cfg.transposeSemitones)

/-- The correctness classification: a note expects a transposed pitch
within one semitone of the expected MIDI pitch, a rest expects no
pitch or `rms < 0.015`, and ticks past the score end are correct. -/
def classifyCorrect (es : ExpectedState) (actualPitchMidi : Option ℤ) (rms : ℚ) : Bool :=
  match es.kind with
  | some EKind.note =>
    match actualPitchMidi, es.pitch with
    | some a, some e => decide (|a - e| ≤ 1)
    | _, _ => false
  | some EKind.rest => decide (actualPitchMidi = none ∨ rms < 0.015)
  | none => true

/-- The expected state looked up by an `update` call, at the corrected
tick. -/
def expectedStateFor (cfg : TrackerConfig) (s : TrackerState) (elapsedMs : ℚ)
    (pitch : Option ℤ) (rms : ℚ) : ExpectedState :=
  getExpectedStateAtTick cfg.score (correctedTickOf cfg s elapsedMs pitch rms)

/-- The `TickState` pushed by an `update` call that lands on a new
tick. -/
def recordedEntry (cfg : TrackerConfig) (s : TrackerState) (elapsedMs : ℚ)
    (pitch : Option ℤ) (rms : ℚ) : TickState :=
  ⟨correctedTickOf cfg s elapsedMs pitch rms,
   rawTickOf cfg elapsedMs,
   (expectedStateFor cfg s elapsedMs pitch rms).kind,
   (expectedStateFor cfg s elapsedMs pitch rms).pitch,
   actualPitchMidiOf cfg pitch,
   rms,
   classifyCorrect (expectedStateFor cfg s elapsedMs pitch rms)
     (actualPitchMidiOf cfg pitch) rms,
   s.currentCentroid, s.currentHNR⟩

/-- `update(pitch, rms)` with the elapsed wall-clock time injected.
`pitch` is the frame's pitch as a rounded MIDI number (the source's
`hzToMidi`); the tracker adds `transposeSemitones` to it, as the
source does on line `actualPitchMidi = hzToMidi(pitch) + transpose`. -/
def update (cfg : TrackerConfig) (s : TrackerState) (elapsedMs : ℚ)
    (pitch : Option ℤ) (rms : ℚ) : TrackerState :=
  if s.hasStarted = false then s else
  let newTick := rawTickOf cfg elapsedMs
  if newTick = s.currentTick then s else
  let offset := stage2Offset cfg s elapsedMs pitch rms
  let firstSound :=
    if s.firstNoteOffsetTicks = none ∧ pitch ≠ none ∧ rms > 0.02
    then some (adjustedTickOf cfg elapsedMs) else s.firstSoundDetectedTick
  { s with currentTick := newTick,
           firstNoteOffsetTicks := offset,
           firstSoundDetectedTick := firstSound,
           stateHistory := s.stateHistory ++ [recordedEntry cfg s elapsedMs pitch rms] }

/-- One analysis frame: injected elapsed time, rounded-MIDI pitch, RMS. -/
structure Frame where
  elapsedMs : ℚ
  pitch : Option ℤ
  rms : ℚ
deriving DecidableEq

def runFrames (cfg : TrackerConfig) (s : TrackerState) (frames : List Frame) : TrackerState :=
  frames.foldl (fun st f => update cfg st f.elapsedMs f.pitch f.rms) s

/-- A full performance: `start()` on a fresh tracker, then one `update`
per frame. -/
def runTracker (cfg : TrackerConfig) (frames : List Frame) : TrackerState :=
  runFrames cfg (trackerStart TrackerState.init) frames

/-! ### articulationDetector.ts -/

inductive ArticulationType
  | normal | staccato | legato | accent
deriving DecidableEq

def HISTORY_SIZE : ℕ := 10

/-- The detector's rolling history after pushing `rms` and shifting off
the oldest entry once the size exceeds `HISTORY_SIZE`. -/
def pushHistory (history : List ℚ) (rms : ℚ) : List ℚ :=
  let h := history ++ [rms]
  if HISTORY_SIZE < h.length then h.tail else h

/-- `avgRMS` of `detectArticulation`: the mean of the rolling history
after the current `rms` has been pushed. -/
def rollingAvgAfter (history : List ℚ) (rms : ℚ) : ℚ :=
  (pushHistory history rms).sum / ((pushHistory history rms).length : ℚ)

/-- `detectArticulation(durationTicks, expectedDurationTicks, rms,
onsetSharpness)`: returns the updated rolling history together with the
label, matching the first of accent / staccato / legato, else normal. -/
def detectArticulation (history : List ℚ) (durationTicks expectedDurationTicks rms
    onsetSharpness : ℚ) : List ℚ × ArticulationType :=
  let h := pushHistory history rms
  let avgRMS := rollingAvgAfter history rms
  let durationRatio := durationTicks / expectedDurationTicks
  let label :=
    if rms > avgRMS * 1.5 ∧ onsetSharpness > 0.7 then ArticulationType.accent
    else if durationRatio < 0.5 ∧ onsetSharpness > 0.6 then ArticulationType.staccato
    else if onsetSharpness < 0.3 ∧ durationRatio ≥ 0.9 then ArticulationType.legato
    else ArticulationType.normal
  (h, label)

/-- `calculateOnsetSharpness(rmsWindow)`: index of the first sample
reaching 80% of the window peak (`-1` when none, as JS `findIndex`);
sharpness 1 when that index is `≤ 0`, else `max 0 (1 - index/10)`;
0 for windows of fewer than 3 samples. -/
def calculateOnsetSharpness (rmsWindow : List ℚ) : ℚ :=
  if rmsWindow.length < 3 then 0 else
  let maxRMS := (rmsWindow.max?).getD 0
  let attackTime : ℤ :=
    match rmsWindow.findIdx? (fun r => maxRMS * 0.8 ≤ r) with
    | some i => (i : ℤ)
    | none => -1
  if attackTime ≤ 0 then 1 else max 0 (1 - (attackTime : ℚ) / 10)

/-! ### rhythmQuantizer.ts -/

/-- A finalized quantized event.  The source's note variant also stores
`midiNote = hzToMidi(pitch)` (a rounded base-2 logarithm of the Hz
value); that transcendental conversion is not modelled, all other
fields are.  `pitch` is the frame pitch value as delivered to
`update`. -/
inductive QEvent
  | note (pitch : ℚ) (startTick : ℤ) (durationTicks : ℤ) (rms : ℚ)
      (articulation : ArticulationType)
  | rest (startTick : ℤ) (durationTicks : ℤ)
deriving DecidableEq

def QEvent.durationTicks : QEvent → ℤ
  | QEvent.note _ _ d _ _ => d
  | QEvent.rest _ d => d

/-- The canonical durations of `roundToNearestDuration`, in the
source's low-to-high scan order. -/
def validDurations : List ℚ := [16, 24, 36, 48, 72, 96, 144]

/-- One step of the JS `reduce`: keep the closer of the accumulator and
the next candidate, the accumulator winning ties. -/
def nearestStep (ticks prev curr : ℚ) : ℚ :=
  if |curr - ticks| < |prev - ticks| then curr else prev

/-- `roundToNearestDuration(ticks)`: JS `reduce` without an initial
value, i.e. fold `nearestStep` over the tail starting from the head. -/
def roundToNearestDuration (ticks : ℚ) : ℚ :=
  match validDurations with
  | [] => 0
  | d :: ds => ds.foldl (nearestStep ticks) d

structure QuantizerState where
  currentTick : ℤ
  currentPitch : Option ℚ
  noteStartTick : Option ℤ
  noteStartRMS : ℚ
  rmsBuffer : List ℚ
  events : List QEvent
  articHistory : List ℚ
deriving DecidableEq

def QuantizerState.init : QuantizerState :=
  ⟨0, none, none, 0, [], [], []⟩

/-- `finalizeNote()`: no-op unless a note is pending; raw duration is
`currentTick - noteStartTick`; its canonical snap is passed to the
articulation detector as the expected duration, while the event logged
keeps the raw duration. -/
def finalizeNote (s : QuantizerState) : QuantizerState :=
  match s.noteStartTick, s.currentPitch with
  | some startTick, some p =>
    let durationTicks := s.currentTick - startTick
    let expectedDurationTicks := roundToNearestDuration (durationTicks : ℚ)
    let onsetSharpness := calculateOnsetSharpness s.rmsBuffer
    let r := detectArticulation s.articHistory (durationTicks : ℚ)
      expectedDurationTicks s.noteStartRMS onsetSharpness
    let ev := QEvent.note p startTick durationTicks s.noteStartRMS r.2
    { s with events := s.events ++ [ev],
             articHistory := r.1,
             noteStartTick := none, currentPitch := none, noteStartRMS := 0 }
  | _, _ => s

/-- `RhythmQuantizer.update(elapsedMs, pitch, rms)`. -/
def quantizerUpdate (tempo : ℚ) (s : QuantizerState) (elapsedMs : ℚ)
    (pitch : Option ℚ) (rms : ℚ) : QuantizerState :=
  let newTick : ℤ := ⌊elapsedMs / msPerTick tempo⌋
  if newTick = s.currentTick then s else
  let s1 := { s with currentTick := newTick,
                     rmsBuffer :=
                       let b := s.rmsBuffer ++ [rms]
                       if 10 < b.length then b.tail else b }
  if pitch ≠ none ∧ rms > 0.02 then
    match s1.noteStartTick with
    | none => { s1 with noteStartTick := some newTick, currentPitch := pitch,
                        noteStartRMS := rms }
    | some _ => s1
  else
    match s1.noteStartTick with
    | some _ => finalizeNote s1
    | none => s1

structure QFrame where
  elapsedMs : ℚ
  pitch : Option ℚ
  rms : ℚ
deriving DecidableEq

def runQuantizer (tempo : ℚ) (frames : List QFrame) : QuantizerState :=
  frames.foldl (fun st f => quantizerUpdate tempo st f.elapsedMs f.pitch f.rms)
    QuantizerState.init

/-! ### assessment.ts -/

inductive Tendency
  | rushing | dragging | onTime
deriving DecidableEq

/-- The timing description, one constructor per distinct string built
by the source (with the millisecond payload of the behind/ahead
messages). -/
inductive TimingDescription
  | noData
  | excellentTiming
  | behindBeat (ms : ℤ)
  | aheadOfBeat (ms : ℤ)
  | inconsistentRushing
  | inconsistentDragging
  | inconsistentMixed
  | greatTempo
deriving DecidableEq

structure Details where
  totalTicks : ℕ
  correctTicks : ℕ
  noteTicks : ℕ
  correctNoteTicks : ℕ
  correct : ℕ
  total : ℕ
  avgTimingError : ℚ
  avgDurationAccuracy : ℚ
  avgHNR : ℚ
  centroidConsistency : ℚ
deriving DecidableEq

structure AssessmentResult where
  overallScore : ℚ
  pitchAccuracy : ℚ
  rhythmAccuracy : ℚ
  toneQuality : ℚ
  tendency : Tendency
  avgOffset : ℚ
  description : TimingDescription
  details : Details
  difficulty : Option ℕ
  noteResults : List (ℤ × Bool)
deriving DecidableEq

def scoreMultiplierForDifficulty (difficulty : Option ℕ) : ℚ :=
  match difficulty with
  | some 1 => 1.0
  | some 2 => 1.025
  | some 3 => 1.05
  | some 4 => 1.075
  | some 5 => 1.1
  | _ => 1.0

def correctTicksOf (log : List TickState) : ℕ :=
  (log.filter (fun s => s.isCorrect)).length

def noteTicksOf (log : List TickState) : List TickState :=
  log.filter (fun s => s.expectedKind = some EKind.note)

def correctNoteTicksOf (log : List TickState) : ℕ :=
  ((noteTicksOf log).filter (fun s => s.isCorrect)).length

/-- `pitchAccuracy` before the percentage conversion:
`(correctNoteTicks / noteTicks.length) * scoreMultiplier` when note
ticks exist, else 0. -/
def pitchAccuracyQ (log : List TickState) (mult : ℚ) : ℚ :=
  if 0 < (noteTicksOf log).length then
    ((correctNoteTicksOf log : ℚ) / ((noteTicksOf log).length : ℚ)) * mult
  else 0

/-- `rhythmAccuracy` before the percentage conversion:
`correctTicks / totalTicks`. -/
def rhythmAccuracyQ (log : List TickState) : ℚ :=
  if 0 < log.length then (correctTicksOf log : ℚ) / (log.length : ℚ) else 0

/-- Tick states feeding the tone-quality metrics: expected note with
positive HNR (the `undefined` checks of the source are vacuous here
because the tracker always sets the spectral fields). -/
def noteStatesWithSpectral (log : List TickState) : List TickState :=
  log.filter (fun s => s.expectedKind = some EKind.note ∧ s.hnr > 0)

structure NoteWindow where
  startTick : ℤ
  endTick : ℤ
  pitch : ℤ
deriving DecidableEq

/-- The expected-note-window construction: each untied note opens a
window `[cur, cur+dur)`; a tied-from note extends the last window's
end instead; rests only advance the clock. -/
def expectedNotesAux : List Event → ℤ → List NoteWindow → List NoteWindow
  | [], _, acc => acc
  | e :: evs, cur, acc =>
    match e with
    | Event.note p dur _ tiedFrom =>
      let d := durToTicks dur
      if tiedFrom = false then
        expectedNotesAux evs (cur + d) (acc ++ [⟨cur, cur + d, pitchToMidi p⟩])
      else
        let acc' := match acc.getLast? with
          | some last => acc.dropLast ++ [{ last with endTick := cur + d }]
          | none => acc
        expectedNotesAux evs (cur + d) acc'
    | Event.rest dur => expectedNotesAux evs (cur + durToTicks dur) acc

def expectedNotesOf (score : Score) : List NoteWindow :=
  expectedNotesAux (scoreEvents score) 0 []

def SEARCH_WINDOW : ℤ := 48

/-- Membership in the slack-extended search range
`[start - 48, end + 48)`. -/
def inSearchRange (w : NoteWindow) (t : TickState) : Bool :=
  decide (w.startTick - SEARCH_WINDOW ≤ t.tick ∧ t.tick < w.endTick + SEARCH_WINDOW)

/-- `isCorrectPitch`: the entry's pitch equals the window's expected
MIDI pitch and its RMS clears the gate. -/
def isCorrectPitchFor (w : NoteWindow) (t : TickState) : Bool :=
  decide (t.actualPitch = some w.pitch ∧ t.actualRMS > 0.02)

/-- `firstCorrectTick`: tick of the first log entry (in log order)
inside the search range whose pitch matches with `rms > 0.02`. -/
def firstCorrectTickOf (log : List TickState) (w : NoteWindow) : Option ℤ :=
  (log.find? (fun t => inSearchRange w t && isCorrectPitchFor w t)).map TickState.tick

/-- The entries counted for the strict window `[start, end)` (the
source reaches this count only for entries already inside the search
range; the strict window is always contained in it). -/
def strictTicksOf (log : List TickState) (w : NoteWindow) : List TickState :=
  log.filter (fun t =>
    inSearchRange w t && decide (w.startTick ≤ t.tick ∧ t.tick < w.endTick))

def windowTotal (log : List TickState) (w : NoteWindow) : ℕ :=
  (strictTicksOf log w).length

def windowCorrect (log : List TickState) (w : NoteWindow) : ℕ :=
  ((strictTicksOf log w).filter (isCorrectPitchFor w)).length

/-- `accuracy = correctTicks / totalTicksInRange` (0 when the strict
window holds no entries). -/
def windowAccuracy (log : List TickState) (w : NoteWindow) : ℚ :=
  if 0 < windowTotal log w then
    (windowCorrect log w : ℚ) / (windowTotal log w : ℚ)
  else 0

/-- `wasNotePlayedCorrectly = accuracy >= 0.5`. -/
def windowPassed (log : List TickState) (w : NoteWindow) : Bool :=
  decide (windowAccuracy log w ≥ 0.5)

/-- The timing sample the window contributes:
`firstCorrectTick - startTick`, when an onset was detected. -/
def windowTransition (log : List TickState) (w : NoteWindow) : Option ℤ :=
  (firstCorrectTickOf log w).map (fun c => c - w.startTick)

def noteResultsOf (log : List TickState) (score : Score) : List (ℤ × Bool) :=
  (expectedNotesOf score).map (fun w => (w.startTick, windowPassed log w))

def noteTransitionsOf (log : List TickState) (score : Score) : List ℤ :=
  (expectedNotesOf score).filterMap (windowTransition log)

def notesCorrectOf (log : List TickState) (score : Score) : ℕ :=
  ((expectedNotesOf score).filter
    (fun w => windowPassed log w && (firstCorrectTickOf log w).isSome)).length

def avgOffsetOf (ts : List ℤ) : ℚ :=
  if ts.length = 0 then 0 else ((ts.sum : ℤ) : ℚ) / (ts.length : ℚ)

def offsetVarianceOf (ts : List ℤ) : ℚ :=
  (ts.map (fun o => ((o : ℚ) - avgOffsetOf ts) ^ 2)).sum / (ts.length : ℚ)

def TENDENCY_THRESHOLD : ℚ := 3
def CONSISTENCY_THRESHOLD : ℚ := 5

def tendencyOf (ts : List ℤ) : Tendency :=
  if ts.length = 0 then Tendency.onTime
  else if |avgOffsetOf ts| > TENDENCY_THRESHOLD then
    (if avgOffsetOf ts > 0 then Tendency.dragging else Tendency.rushing)
  else Tendency.onTime

def rushingCountOf (ts : List ℤ) : ℕ := (ts.filter (fun o => o < -3)).length
def draggingCountOf (ts : List ℤ) : ℕ := (ts.filter (fun o => 3 < o)).length

def descriptionOf (sqrtFn : ℚ → ℚ) (tempo : ℚ) (ts : List ℤ) : TimingDescription :=
  if ts.length = 0 then TimingDescription.excellentTiming
  else if |avgOffsetOf ts| > TENDENCY_THRESHOLD then
    let ms := jsRound (|avgOffsetOf ts| * msPerTick tempo)
    (if avgOffsetOf ts > 0 then TimingDescription.behindBeat ms
     else TimingDescription.aheadOfBeat ms)
  else if sqrtFn (offsetVarianceOf ts) > CONSISTENCY_THRESHOLD then
    (if (rushingCountOf ts : ℚ) > (draggingCountOf ts : ℚ) * 1.5 then
      TimingDescription.inconsistentRushing
     else if (draggingCountOf ts : ℚ) > (rushingCountOf ts : ℚ) * 1.5 then
      TimingDescription.inconsistentDragging
     else TimingDescription.inconsistentMixed)
  else TimingDescription.greatTempo

def avgHNROf (log : List TickState) : ℚ :=
  ((noteStatesWithSpectral log).map TickState.hnr).sum /
    ((noteStatesWithSpectral log).length : ℚ)

def hnrScoreOf (log : List TickState) : ℚ :=
  min 1 (max 0 (avgHNROf log / 25))

def avgCentroidOf (log : List TickState) : ℚ :=
  ((noteStatesWithSpectral log).map TickState.centroid).sum /
    ((noteStatesWithSpectral log).length : ℚ)

def centroidVarianceOf (log : List TickState) : ℚ :=
  ((noteStatesWithSpectral log).map
    (fun s => (s.centroid - avgCentroidOf log) ^ 2)).sum /
    ((noteStatesWithSpectral log).length : ℚ)

def centroidCVOf (sqrtFn : ℚ → ℚ) (log : List TickState) : ℚ :=
  if avgCentroidOf log > 0 then sqrtFn (centroidVarianceOf log) / avgCentroidOf log
  else 1

def centroidConsistencyOf (sqrtFn : ℚ → ℚ) (log : List TickState) : ℚ :=
  max 0 (1 - centroidCVOf sqrtFn log * 1.5)

def toneQualityOf (sqrtFn : ℚ → ℚ) (log : List TickState) : ℚ :=
  (hnrScoreOf log * 0.6 + centroidConsistencyOf sqrtFn log * 0.4) * 1.1

/-- `assessPerformance(stateHistory, baselineCentroid, baselineHNR,
score, difficulty, tempo)`.  The baseline arguments are bound exactly
as in the source signature; the body never reads them.  The source's
`actualNotes` list is built only to be `console.log`ged and never
influences the result, so it is not reproduced. -/
def assessPerformance (sqrtFn : ℚ → ℚ) (stateHistory : List TickState)
    (baselineCentroid baselineHNR : ℚ) (score : Score) (difficulty : Option ℕ)
    (tempo : ℚ) : AssessmentResult :=
  if stateHistory.length = 0 then
    ⟨0, 0, 0, 0, Tendency.onTime, 0, TimingDescription.noData,
     ⟨0, 0, 0, 0, 0, 0, 0, 0, 0, 0⟩, difficulty, []⟩
  else
  let scoreMultiplier := scoreMultiplierForDifficulty difficulty
  let pa := pitchAccuracyQ stateHistory scoreMultiplier
  let ra := rhythmAccuracyQ stateHistory
  let trans := noteTransitionsOf stateHistory score
  let avgOffset := avgOffsetOf trans
  let tendency := tendencyOf trans
  let description := descriptionOf sqrtFn tempo trans
  if (noteStatesWithSpectral stateHistory).length = 0 then
    ⟨0, 0, 0, 0, tendency, avgOffset, description,
     ⟨stateHistory.length, correctTicksOf stateHistory,
      (noteTicksOf stateHistory).length, correctNoteTicksOf stateHistory,
      notesCorrectOf stateHistory score, (expectedNotesOf score).length,
      0, 100, 0, 0⟩,
     difficulty, noteResultsOf stateHistory score⟩
  else
  let tq := toneQualityOf sqrtFn stateHistory
  let rawScore := pa * 0.5 + ra * 0.3 + tq * 0.2
  let overallScore := min 100 (rawScore * 100)
  ⟨round2 overallScore, roundPct pa, roundPct ra, roundPct tq,
   tendency, round1 avgOffset, description,
   ⟨stateHistory.length, correctTicksOf stateHistory,
    (noteTicksOf stateHistory).length, correctNoteTicksOf stateHistory,
    notesCorrectOf stateHistory score, (expectedNotesOf score).length,
    0, 100, round1 (avgHNROf stateHistory),
    (jsRound (centroidConsistencyOf sqrtFn stateHistory * 100) : ℚ)⟩,
   difficulty, noteResultsOf stateHistory score⟩

/-! ### Concrete instances used in the theorems below -/

/-- A stand-in square-root function for closed evaluations; every
universally quantified theorem below holds for all `sqrtFn`, so any
instantiation is admissible. -/
def sqrtZero : ℚ → ℚ := fun _ => 0

/-- C4: spelled middle C (MIDI 60). -/
def midC : PitchSpelling := ⟨Step.C, 0, 4⟩

def scoreEmpty : Score := ⟨[]⟩

/-- A score consisting of a single quarter rest. -/
def scoreOneRest : Score := ⟨[⟨[Event.rest Duration.q]⟩]⟩

/-- A score consisting of a single quarter note on middle C. -/
def scoreOneNote : Score := ⟨[⟨[Event.note midC Duration.q false false]⟩]⟩

/-- Tempo 125 BPM gives exactly 10 ms per tick. -/
def cfgOneRest : TrackerConfig := ⟨scoreOneRest, 125, 0, 0⟩

def cfgOneNote : TrackerConfig := ⟨scoreOneNote, 125, 0, 0⟩

/-- A one-entry tick log: an expected-note tick played correctly but
carrying no positive HNR reading. -/
def logNoSpectral : List TickState :=
  [⟨0, 1, some EKind.note, some 60, some 60, 0.1, true, 0, 0⟩]

/-- A one-entry tick log whose only entry sits at corrected tick −10,
inside the search slack of a note window `[0, 48)` but outside the
strict window, with the matching pitch above the RMS gate. -/
def logEarlyOnset : List TickState :=
  [⟨-10, 1, some EKind.note, some 60, some 60, 0.1, true, 0, 0⟩]

/-- A one-entry tick log carrying spectral readings (HNR 20 dB,
centroid 1000 Hz) on a correctly played expected-note tick. -/
def logWithSpectral : List TickState :=
  [⟨0, 1, some EKind.note, some 60, some 60, 0.1, true, 1000, 20⟩]

/-! ## Helper lemmas -/

/-- An `update` whose raw tick has not advanced leaves the tracker
untouched (sub-tick frames coalesce by dropping everything after the
first frame of a tick). -/
theorem update_same_tick (cfg : TrackerConfig) (s : TrackerState) (e : ℚ)
    (p : Option ℤ) (r : ℚ) (h2 : rawTickOf cfg e = s.currentTick) :
    update cfg s e p r = s := by
  unfold update
  by_cases h : s.hasStarted = false
  · simp [h]
  · simp [h, h2]

/-- An `update` before `start()` is a no-op. -/
theorem update_not_started (cfg : TrackerConfig) (s : TrackerState) (e : ℚ)
    (p : Option ℤ) (r : ℚ) (h : s.hasStarted = false) :
    update cfg s e p r = s := by
  unfold update
  simp [h]

/-- The full effect of an `update` that lands on a new tick. -/
theorem update_new_tick (cfg : TrackerConfig) (s : TrackerState) (e : ℚ)
    (p : Option ℤ) (r : ℚ) (h : s.hasStarted = true)
    (h2 : rawTickOf cfg e ≠ s.currentTick) :
    update cfg s e p r =
      { s with currentTick := rawTickOf cfg e,
               firstNoteOffsetTicks := stage2Offset cfg s e p r,
               firstSoundDetectedTick :=
                 if s.firstNoteOffsetTicks = none ∧ p ≠ none ∧ r > 0.02
                 then some (adjustedTickOf cfg e) else s.firstSoundDetectedTick,
               stateHistory := s.stateHistory ++ [recordedEntry cfg s e p r] } := by
  unfold update
  simp [h, h2]

/-- A located expected note always carries an expected MIDI pitch. -/
theorem expectedAtAux_note_pitch :
    ∀ (evs : List Event) (cur tick : ℤ),
      (expectedAtAux evs cur tick).kind = some EKind.note →
      ∃ ep : ℤ, (expectedAtAux evs cur tick).pitch = some ep := by
  intro evs
  induction evs with
  | nil => intro cur tick h; simp [expectedAtAux] at h
  | cons e evs ih =>
    intro cur tick h
    unfold expectedAtAux at h ⊢
    by_cases hc : cur ≤ tick ∧ tick < cur + durToTicks e.dur
    · simp only [if_pos hc] at h ⊢
      cases e with
      | note p d t f => exact ⟨pitchToMidi p, rfl⟩
      | rest d => simp at h
    · simp only [if_neg hc] at h ⊢
      exact ih _ _ h

/-! ## Claims -/

/-- Claim C9: `assessPerformance` returns identical results for any
two values of the baseline centroid argument and any two values of the
baseline HNR argument — the result never depends on them. -/
theorem C9_baseline_independence (sqrtFn : ℚ → ℚ) (log : List TickState)
    (b1 b1' b2 b2' : ℚ) (score : Score) (difficulty : Option ℕ) (tempo : ℚ) :
    assessPerformance sqrtFn log b1 b2 score difficulty tempo =
      assessPerformance sqrtFn log b1' b2' score difficulty tempo := rfl

/-- Claim C2: an `update` after `start()` that lands on a new tick
whose expected event is a note records one `TickState` whose
`isCorrect` is true iff an actual pitch exists whose transposed MIDI
value is within one semitone (absolute difference ≤ 1) of the expected
MIDI pitch. -/
theorem C2_note_tick_correctness (cfg : TrackerConfig) (s : TrackerState)
    (elapsedMs : ℚ) (pitch : Option ℤ) (rms : ℚ)
    (hs : s.hasStarted = true)
    (hn : rawTickOf cfg elapsedMs ≠ s.currentTick)
    (hk : (expectedStateFor cfg s elapsedMs pitch rms).kind = some EKind.note) :
    ∃ ep : ℤ,
      (expectedStateFor cfg s elapsedMs pitch rms).pitch = some ep ∧
      (update cfg s elapsedMs pitch rms).stateHistory
        = s.stateHistory ++ [recordedEntry cfg s elapsedMs pitch rms] ∧
      ((recordedEntry cfg s elapsedMs pitch rms).isCorrect = true ↔
        ∃ a : ℤ, pitch = some a ∧ |a + cfg.transposeSemitones - ep| ≤ 1) := by
  obtain ⟨ep, hep⟩ := expectedAtAux_note_pitch (scoreEvents cfg.score) 0
    (correctedTickOf cfg s elapsedMs pitch rms) hk
  have hepF : (expectedStateFor cfg s elapsedMs pitch rms).pitch = some ep := hep
  refine ⟨ep, hepF, ?_, ?_⟩
  · rw [update_new_tick cfg s elapsedMs pitch rms hs hn]
  · unfold recordedEntry classifyCorrect
    rw [hk, hepF]
    cases pitch with
    | none =>
      simp [actualPitchMidiOf]
    | some a =>
      simp [actualPitchMidiOf]

/-- Claim C2 witness: a concrete first frame on the one-note score,
landing on tick 1 with pitch 60 and RMS 0.1. -/
theorem C2_note_tick_correctness_witness :
    ∃ ep : ℤ,
      (expectedStateFor cfgOneNote (trackerStart TrackerState.init) 15 (some 60) (1/10)).pitch = some ep ∧
      (update cfgOneNote (trackerStart TrackerState.init) 15 (some 60) (1/10)).stateHistory
        = (trackerStart TrackerState.init).stateHistory ++
          [recordedEntry cfgOneNote (trackerStart TrackerState.init) 15 (some 60) (1/10)] ∧
      ((recordedEntry cfgOneNote (trackerStart TrackerState.init) 15 (some 60) (1/10)).isCorrect = true ↔
        ∃ a : ℤ, (some 60 : Option ℤ) = some a ∧
          |a + cfgOneNote.transposeSemitones - ep| ≤ 1) :=
  C2_note_tick_correctness cfgOneNote (trackerStart TrackerState.init) 15 (some 60) (1/10)
    rfl
    (by norm_num [rawTickOf, msPerTick, cfgOneNote, trackerStart, TrackerState.init])
    (by norm_num [expectedStateFor, getExpectedStateAtTick, correctedTickOf, stage2Offset,
      adjustedTickOf, rawTickOf, calibratedLatencyTicks, jsRound, msPerTick, cfgOneNote,
      scoreOneNote, trackerStart, TrackerState.init, scoreEvents, expectedAtAux,
      SNAP_THRESHOLD, midC, durToTicks, Event.dur, Option.some_ne_none])

/-- Claim C3 (amended): an `update` after `start()` landing on a new
tick whose expected event is a rest records `isCorrect = true` iff the
frame has no pitch or `rms < 0.015`; in particular a frame with a null
pitch is correct for every RMS value, and a frame with a pitch present
and `rms = 0.02` is recorded incorrect. -/
theorem C3_rest_tick_correctness (cfg : TrackerConfig) (s : TrackerState)
    (elapsedMs : ℚ) (pitch : Option ℤ) (rms : ℚ)
    (hs : s.hasStarted = true)
    (hn : rawTickOf cfg elapsedMs ≠ s.currentTick)
    (hk : (expectedStateFor cfg s elapsedMs pitch rms).kind = some EKind.rest) :
    (update cfg s elapsedMs pitch rms).stateHistory
      = s.stateHistory ++ [recordedEntry cfg s elapsedMs pitch rms] ∧
    ((recordedEntry cfg s elapsedMs pitch rms).isCorrect = true ↔
      (pitch = none ∨ rms < 0.015)) := by
  refine ⟨?_, ?_⟩
  · rw [update_new_tick cfg s elapsedMs pitch rms hs hn]
  · unfold recordedEntry classifyCorrect
    rw [hk]
    cases pitch with
    | none => simp [actualPitchMidiOf]
    | some a => simp [actualPitchMidiOf]

/-- Claim C3 witness: a silent frame (`rms = 0.01 < 0.015`) on the
one-rest score is recorded correct. -/
theorem C3_rest_tick_correctness_witness :
    (update cfgOneRest (trackerStart TrackerState.init) 15 none (1/100)).stateHistory
      = (trackerStart TrackerState.init).stateHistory ++
        [recordedEntry cfgOneRest (trackerStart TrackerState.init) 15 none (1/100)] ∧
    ((recordedEntry cfgOneRest (trackerStart TrackerState.init) 15 none (1/100)).isCorrect = true ↔
      ((none : Option ℤ) = none ∨ (1/100 : ℚ) < 0.015)) :=
  C3_rest_tick_correctness cfgOneRest (trackerStart TrackerState.init) 15 none (1/100)
    rfl
    (by norm_num [rawTickOf, msPerTick, cfgOneRest, trackerStart, TrackerState.init])
    (by norm_num [expectedStateFor, getExpectedStateAtTick, correctedTickOf, stage2Offset,
      adjustedTickOf, rawTickOf, calibratedLatencyTicks, jsRound, msPerTick, cfgOneRest,
      scoreOneRest, trackerStart, TrackerState.init, scoreEvents, expectedAtAux,
      SNAP_THRESHOLD, durToTicks, Event.dur, Option.some_ne_none])

/-- Claim C3 counterexample: during an expected rest, a frame with
`rms = 0.02` and a null pitch is recorded with `isCorrect = true`, not
`false` as claimed — the null pitch alone satisfies the rest
condition. -/
theorem C3_rest_boundary_counterexample :
    (runTracker cfgOneRest [⟨15, none, 0.02⟩]).stateHistory.map TickState.expectedKind
      = [some EKind.rest] ∧
    (runTracker cfgOneRest [⟨15, none, 0.02⟩]).stateHistory.map TickState.actualPitch
      = [none] ∧
    (runTracker cfgOneRest [⟨15, none, 0.02⟩]).stateHistory.map TickState.actualRMS
      = [0.02] ∧
    (runTracker cfgOneRest [⟨15, none, 0.02⟩]).stateHistory.map TickState.isCorrect
      = [true] ∧
    ([true] : List Bool) ≠ [false] := by
  have hrun : runTracker cfgOneRest [⟨15, none, 0.02⟩]
      = update cfgOneRest (trackerStart TrackerState.init) 15 none 0.02 := rfl
  rw [hrun, update_new_tick cfgOneRest (trackerStart TrackerState.init) 15 none 0.02 rfl
    (by norm_num [rawTickOf, msPerTick, cfgOneRest, trackerStart, TrackerState.init])]
  refine ⟨?_, ?_, ?_, ?_, by simp⟩ <;>
    norm_num [recordedEntry, expectedStateFor, getExpectedStateAtTick, correctedTickOf,
      stage2Offset, adjustedTickOf, rawTickOf, calibratedLatencyTicks, jsRound, msPerTick,
      cfgOneRest, scoreOneRest, trackerStart, TrackerState.init, scoreEvents, expectedAtAux,
      SNAP_THRESHOLD, durToTicks, Event.dur, classifyCorrect, actualPitchMidiOf,
      Option.some_ne_none]

/-- Unfolding of `runFrames` over a cons cell. -/
theorem runFrames_cons (cfg : TrackerConfig) (s : TrackerState) (f : Frame)
    (fs : List Frame) :
    runFrames cfg s (f :: fs)
      = runFrames cfg (update cfg s f.elapsedMs f.pitch f.rms) fs := rfl

/-- A single `update` keeps a frozen Stage-2 offset and stamps every
entry it records with `tick = rawTick - latency - offset`. -/
theorem update_preserves_offset (cfg : TrackerConfig) (s : TrackerState)
    (e : ℚ) (p : Option ℤ) (r : ℚ) (v : ℤ)
    (hv : s.firstNoteOffsetTicks = some v) :
    (update cfg s e p r).firstNoteOffsetTicks = some v ∧
    ∀ t ∈ (update cfg s e p r).stateHistory,
      t ∈ s.stateHistory ∨ t.tick = t.rawTick - calibratedLatencyTicks cfg - v := by
  by_cases h1 : s.hasStarted = false
  · rw [update_not_started cfg s e p r h1]
    exact ⟨hv, fun t ht => Or.inl ht⟩
  · have h1' : s.hasStarted = true := by revert h1; cases s.hasStarted <;> simp
    by_cases h2 : rawTickOf cfg e = s.currentTick
    · rw [update_same_tick cfg s e p r h2]
      exact ⟨hv, fun t ht => Or.inl ht⟩
    · rw [update_new_tick cfg s e p r h1' h2]
      refine ⟨by simp [stage2Offset, hv], ?_⟩
      intro t ht
      simp only [List.mem_append, List.mem_singleton] at ht
      rcases ht with ht | ht
      · exact Or.inl ht
      · refine Or.inr ?_
        subst ht
        simp [recordedEntry, correctedTickOf, stage2Offset, hv, adjustedTickOf]

/-- Claim C4 (amended): the Stage-2 fine offset is frozen on the first
tick-advancing `update` with pitch present and `rms > 0.02`: it equals
the Stage-1-adjusted tick when that tick lies in `[0, 30]` and `0`
otherwise; once frozen it is never recomputed, and every subsequently
recorded entry's corrected tick equals its raw tick minus the
calibrated latency minus the frozen offset. -/
theorem C4_stage2_offset_freeze (cfg : TrackerConfig) :
    (∀ (s : TrackerState) (e : ℚ) (p : Option ℤ) (r : ℚ),
      s.hasStarted = true → s.firstNoteOffsetTicks = none →
      rawTickOf cfg e ≠ s.currentTick → p ≠ none → r > 0.02 →
      (update cfg s e p r).firstNoteOffsetTicks =
        (if 0 ≤ adjustedTickOf cfg e ∧ adjustedTickOf cfg e ≤ SNAP_THRESHOLD
         then some (adjustedTickOf cfg e) else some 0)) ∧
    (∀ (s : TrackerState) (v : ℤ) (frames : List Frame),
      s.firstNoteOffsetTicks = some v →
      (runFrames cfg s frames).firstNoteOffsetTicks = some v ∧
      ∀ t ∈ (runFrames cfg s frames).stateHistory,
        t ∈ s.stateHistory ∨ t.tick = t.rawTick - calibratedLatencyTicks cfg - v) := by
  constructor
  · intro s e p r hs hnone hn hp hr
    rw [update_new_tick cfg s e p r hs hn]
    simp [stage2Offset, hnone, hp, hr]
  · intro s v frames
    induction frames generalizing s with
    | nil => exact fun hv => ⟨hv, fun t ht => Or.inl ht⟩
    | cons f fs ih =>
      intro hv
      rw [runFrames_cons]
      have hstep := update_preserves_offset cfg s f.elapsedMs f.pitch f.rms v hv
      have hrec := ih (update cfg s f.elapsedMs f.pitch f.rms) hstep.1
      refine ⟨hrec.1, ?_⟩
      intro t ht
      rcases hrec.2 t ht with h | h
      · exact hstep.2 t h
      · exact Or.inr h

/-- Claim C4 witness: with zero calibrated latency, a first sound on
tick 1 freezes offset 1, and a state with a frozen offset 1 keeps it
across a further frame, whose recorded entry is shifted by it. -/
theorem C4_stage2_offset_freeze_witness :
    ((update cfgOneNote (trackerStart TrackerState.init) 15 (some 60) (1/10)).firstNoteOffsetTicks =
      (if 0 ≤ adjustedTickOf cfgOneNote 15 ∧ adjustedTickOf cfgOneNote 15 ≤ SNAP_THRESHOLD
       then some (adjustedTickOf cfgOneNote 15) else some 0)) ∧
    ((runFrames cfgOneNote (update cfgOneNote (trackerStart TrackerState.init) 15 (some 60) (1/10))
        [⟨25, some 60, 1/10⟩]).firstNoteOffsetTicks = some 1 ∧
      ∀ t ∈ (runFrames cfgOneNote (update cfgOneNote (trackerStart TrackerState.init) 15 (some 60) (1/10))
        [⟨25, some 60, 1/10⟩]).stateHistory,
        t ∈ (update cfgOneNote (trackerStart TrackerState.init) 15 (some 60) (1/10)).stateHistory ∨
          t.tick = t.rawTick - calibratedLatencyTicks cfgOneNote - 1) := by
  have hfreeze := (C4_stage2_offset_freeze cfgOneNote).1 (trackerStart TrackerState.init)
    15 (some 60) (1/10) rfl rfl
    (by norm_num [rawTickOf, msPerTick, cfgOneNote, trackerStart, TrackerState.init])
    (by simp) (by norm_num)
  refine ⟨hfreeze, (C4_stage2_offset_freeze cfgOneNote).2 _ 1 [⟨25, some 60, 1/10⟩] ?_⟩
  rw [hfreeze]
  norm_num [adjustedTickOf, rawTickOf, calibratedLatencyTicks, jsRound, msPerTick,
    cfgOneNote, SNAP_THRESHOLD]

/-- Claim C4 counterexample: the first `update` with pitch present and
`rms > 0.02` does not always freeze the offset — a sound frame arriving
while the raw tick still equals the counter (here during raw tick 0) is
dropped entirely, so no offset is computed on it. -/
theorem C4_coalesced_first_sound_counterexample :
    ((1/10 : ℚ) > 0.02) ∧
    (runTracker cfgOneNote [⟨5, some 60, 1/10⟩]).firstNoteOffsetTicks = none ∧
    (runTracker cfgOneNote [⟨5, some 60, 1/10⟩]).stateHistory = [] := by
  have hrun : runTracker cfgOneNote [⟨5, some 60, 1/10⟩]
      = update cfgOneNote (trackerStart TrackerState.init) 5 (some 60) (1/10) := rfl
  rw [hrun, update_same_tick cfgOneNote (trackerStart TrackerState.init) 5 (some 60) (1/10)
    (by norm_num [rawTickOf, msPerTick, cfgOneNote, trackerStart, TrackerState.init])]
  exact ⟨by norm_num, rfl, rfl⟩

/-- Raw ticks are monotone in elapsed time (for a positive tempo). -/
theorem rawTickOf_mono (cfg : TrackerConfig) (htempo : 0 < cfg.tempo)
    {e1 e2 : ℚ} (he : e1 ≤ e2) :
    rawTickOf cfg e1 ≤ rawTickOf cfg e2 := by
  have hmpt : 0 < msPerTick cfg.tempo := by
    unfold msPerTick
    positivity
  exact Int.floor_le_floor (by gcongr)

/-- The run invariant behind claims C5 and C10: from a started state
whose counter is a nonnegative upper bound of all recorded raw ticks,
processing frames with nonnegative, non-decreasing elapsed times keeps
the counter nonnegative, the recorded raw ticks strictly increasing,
and every recorded raw tick in `[1, counter]`. -/
theorem runFrames_raw_invariant (cfg : TrackerConfig) (htempo : 0 < cfg.tempo) :
    ∀ (frames : List Frame) (s : TrackerState),
      s.hasStarted = true →
      0 ≤ s.currentTick →
      (∀ f ∈ frames.head?, s.currentTick ≤ rawTickOf cfg f.elapsedMs) →
      List.Chain' (fun a b => a.elapsedMs ≤ b.elapsedMs) frames →
      List.Pairwise (fun a b : TickState => a.rawTick < b.rawTick) s.stateHistory →
      (∀ t ∈ s.stateHistory, t.rawTick ≤ s.currentTick ∧ 1 ≤ t.rawTick) →
      0 ≤ (runFrames cfg s frames).currentTick ∧
      List.Pairwise (fun a b : TickState => a.rawTick < b.rawTick)
        (runFrames cfg s frames).stateHistory ∧
      (∀ t ∈ (runFrames cfg s frames).stateHistory,
        t.rawTick ≤ (runFrames cfg s frames).currentTick ∧ 1 ≤ t.rawTick) := by
  intro frames
  induction frames with
  | nil => exact fun s _ h0 _ _ hp hb => ⟨h0, hp, hb⟩
  | cons f fs ih =>
    intro s hs h0 hhead hchain hpair hbound
    rw [runFrames_cons]
    have hnt : s.currentTick ≤ rawTickOf cfg f.elapsedMs := hhead f rfl
    have hchain' := List.chain'_cons'.mp hchain
    by_cases h2 : rawTickOf cfg f.elapsedMs = s.currentTick
    · rw [update_same_tick cfg s f.elapsedMs f.pitch f.rms h2]
      refine ih s hs h0 ?_ hchain'.2 hpair hbound
      intro f2 hf2
      calc s.currentTick = rawTickOf cfg f.elapsedMs := h2.symm
        _ ≤ rawTickOf cfg f2.elapsedMs := rawTickOf_mono cfg htempo (hchain'.1 f2 hf2)
    · rw [update_new_tick cfg s f.elapsedMs f.pitch f.rms hs h2]
      have hlt : s.currentTick < rawTickOf cfg f.elapsedMs := lt_of_le_of_ne hnt (Ne.symm h2)
      have hre : (recordedEntry cfg s f.elapsedMs f.pitch f.rms).rawTick
          = rawTickOf cfg f.elapsedMs := rfl
      refine ih _ hs (le_trans h0 (le_of_lt hlt)) ?_ hchain'.2 ?_ ?_
      · intro f2 hf2
        exact rawTickOf_mono cfg htempo (hchain'.1 f2 hf2)
      · show List.Pairwise _ (s.stateHistory ++ [recordedEntry cfg s f.elapsedMs f.pitch f.rms])
        rw [List.pairwise_append]
        refine ⟨hpair, List.pairwise_singleton _ _, ?_⟩
        intro a ha b hb
        simp only [List.mem_singleton] at hb
        subst hb
        rw [hre]
        exact lt_of_le_of_lt (hbound a ha).1 hlt
      · intro t ht
        simp only [List.mem_append, List.mem_singleton] at ht
        rcases ht with ht | ht
        · exact ⟨le_trans (hbound t ht).1 (le_of_lt hlt), (hbound t ht).2⟩
        · subst ht
          exact ⟨le_of_eq hre, by rw [hre]; omega⟩

/-- Claim C5 (amended): same-raw-tick frames coalesce by dropping every
frame after the first one of a tick (`update` is the identity when the
raw tick is unchanged, so the first frame's values win, not the last),
and over any monotone, nonnegative elapsed-time sequence the recorded
raw ticks are strictly increasing — hence at most one entry per integer
raw tick. -/
theorem C5_one_entry_per_raw_tick :
    (∀ (cfg : TrackerConfig) (s : TrackerState) (e : ℚ) (p : Option ℤ) (r : ℚ),
      rawTickOf cfg e = s.currentTick → update cfg s e p r = s) ∧
    (∀ (cfg : TrackerConfig) (frames : List Frame),
      0 < cfg.tempo →
      (∀ f ∈ frames, 0 ≤ f.elapsedMs) →
      List.Chain' (fun a b => a.elapsedMs ≤ b.elapsedMs) frames →
      List.Pairwise (fun a b : TickState => a.rawTick < b.rawTick)
        (runTracker cfg frames).stateHistory) := by
  constructor
  · exact fun cfg s e p r h => update_same_tick cfg s e p r h
  · intro cfg frames htempo hnn hchain
    have hmpt : 0 < msPerTick cfg.tempo := by
      unfold msPerTick
      positivity
    have h := runFrames_raw_invariant cfg htempo frames (trackerStart TrackerState.init)
      rfl le_rfl ?_ hchain (by simp [trackerStart, TrackerState.init]) ?_
    · exact h.2.1
    · intro f hf
      have : 0 ≤ f.elapsedMs := hnn f (by cases frames with
        | nil => simp at hf
        | cons g gs => simp at hf; simp [hf])
      show (0 : ℤ) ≤ rawTickOf cfg f.elapsedMs
      exact Int.floor_nonneg.mpr (div_nonneg this (le_of_lt hmpt))
    · simp [trackerStart, TrackerState.init]

/-- Claim C5 witness: two frames landing on the same raw tick with a
positive, monotone clock yield strictly increasing recorded raw
ticks. -/
theorem C5_one_entry_per_raw_tick_witness :
    (update cfgOneRest { trackerStart TrackerState.init with currentTick := 1 } 16 none (1/2)
      = { trackerStart TrackerState.init with currentTick := 1 }) ∧
    List.Pairwise (fun a b : TickState => a.rawTick < b.rawTick)
      (runTracker cfgOneRest [⟨15, none, 1/10⟩, ⟨16, none, 1/2⟩]).stateHistory := by
  constructor
  · exact C5_one_entry_per_raw_tick.1 cfgOneRest _ 16 none (1/2)
      (by norm_num [rawTickOf, msPerTick, cfgOneRest, trackerStart, TrackerState.init])
  · refine C5_one_entry_per_raw_tick.2 cfgOneRest _ (by norm_num [cfgOneRest]) ?_ ?_
    · intro f hf
      simp only [List.mem_cons, List.not_mem_nil, or_false] at hf
      rcases hf with hf | hf <;> (subst hf; norm_num)
    · refine List.chain'_cons.mpr ⟨by norm_num, List.chain'_singleton _⟩

/-- Claim C5 counterexample: two frames on the same raw tick with
different RMS values — the log keeps the first frame's RMS 0.1, not the
last frame's 0.5: last value does not win. -/
theorem C5_last_wins_counterexample :
    (runTracker cfgOneRest [⟨15, none, 1/10⟩, ⟨16, none, 1/2⟩]).stateHistory.map
        TickState.rawTick = [1] ∧
    (runTracker cfgOneRest [⟨15, none, 1/10⟩, ⟨16, none, 1/2⟩]).stateHistory.map
        TickState.actualRMS = [1/10] ∧
    ((1/10 : ℚ) ≠ 1/2) := by
  have hs1 := update_new_tick cfgOneRest (trackerStart TrackerState.init) 15 none (1/10)
    rfl (by norm_num [rawTickOf, msPerTick, cfgOneRest, trackerStart, TrackerState.init])
  have hrun : runTracker cfgOneRest [⟨15, none, 1/10⟩, ⟨16, none, 1/2⟩]
      = update cfgOneRest (update cfgOneRest (trackerStart TrackerState.init) 15 none (1/10))
          16 none (1/2) := rfl
  rw [hrun, hs1, update_same_tick _ _ 16 none (1/2)
    (by norm_num [rawTickOf, msPerTick, cfgOneRest, trackerStart, TrackerState.init])]
  refine ⟨?_, ?_, by norm_num⟩ <;>
    norm_num [recordedEntry, trackerStart, TrackerState.init, rawTickOf, msPerTick, cfgOneRest]

/-- Claim C10: `start()` zeroes the tick counter and log; `update()`
returns without logging when the raw tick is unchanged and appends
exactly one entry when it changes; consequently (for a positive tempo
and nonnegative, monotone elapsed times) every recorded entry has
`rawTick ≥ 1` — no frame of raw tick 0 is ever recorded. -/
theorem C10_no_tick_zero_entry :
    (∀ s : TrackerState, (trackerStart s).currentTick = 0 ∧ (trackerStart s).stateHistory = []) ∧
    (∀ (cfg : TrackerConfig) (s : TrackerState) (e : ℚ) (p : Option ℤ) (r : ℚ),
      s.hasStarted = true →
      (rawTickOf cfg e = s.currentTick → update cfg s e p r = s) ∧
      (rawTickOf cfg e ≠ s.currentTick →
        (update cfg s e p r).stateHistory = s.stateHistory ++ [recordedEntry cfg s e p r])) ∧
    (∀ (cfg : TrackerConfig) (frames : List Frame),
      0 < cfg.tempo →
      (∀ f ∈ frames, 0 ≤ f.elapsedMs) →
      List.Chain' (fun a b => a.elapsedMs ≤ b.elapsedMs) frames →
      ∀ t ∈ (runTracker cfg frames).stateHistory, 1 ≤ t.rawTick) := by
  refine ⟨fun s => ⟨rfl, rfl⟩, ?_, ?_⟩
  · intro cfg s e p r hs
    refine ⟨fun h => update_same_tick cfg s e p r h, fun h => ?_⟩
    rw [update_new_tick cfg s e p r hs h]
  · intro cfg frames htempo hnn hchain t ht
    have hmpt : 0 < msPerTick cfg.tempo := by
      unfold msPerTick
      positivity
    have h := runFrames_raw_invariant cfg htempo frames (trackerStart TrackerState.init)
      rfl le_rfl ?_ hchain (by simp [trackerStart, TrackerState.init]) ?_
    · exact (h.2.2 t ht).2
    · intro f hf
      have hf' : f ∈ frames := by
        cases frames with
        | nil => simp at hf
        | cons g gs => simp at hf; simp [hf]
      show (0 : ℤ) ≤ rawTickOf cfg f.elapsedMs
      exact Int.floor_nonneg.mpr (div_nonneg (hnn f hf') (le_of_lt hmpt))
    · simp [trackerStart, TrackerState.init]

/-- Claim C10 witness: a concrete monotone two-frame run on the
one-rest score; both recorded entries have raw tick at least 1, and the
structural clauses at a concrete state. -/
theorem C10_no_tick_zero_entry_witness :
    ((trackerStart TrackerState.init).currentTick = 0 ∧
      (trackerStart TrackerState.init).stateHistory = []) ∧
    (update cfgOneRest (trackerStart TrackerState.init) 5 none (1/10)
      = trackerStart TrackerState.init) ∧
    (∀ t ∈ (runTracker cfgOneRest [⟨15, none, 1/10⟩, ⟨25, none, 1/10⟩]).stateHistory,
      1 ≤ t.rawTick) := by
  refine ⟨C10_no_tick_zero_entry.1 TrackerState.init, ?_, ?_⟩
  · exact (C10_no_tick_zero_entry.2.1 cfgOneRest (trackerStart TrackerState.init)
      5 none (1/10) rfl).1
      (by norm_num [rawTickOf, msPerTick, cfgOneRest, trackerStart, TrackerState.init])
  · refine C10_no_tick_zero_entry.2.2 cfgOneRest _ (by norm_num [cfgOneRest]) ?_ ?_
    · intro f hf
      simp only [List.mem_cons, List.not_mem_nil, or_false] at hf
      rcases hf with hf | hf <;> (subst hf; norm_num)
    · refine List.chain'_cons.mpr ⟨by norm_num, List.chain'_singleton _⟩

/-- Claim C7 (amended): `detectArticulation` returns exactly one label
in strict priority order accent > staccato > legato > normal; whenever
the current RMS is twice the (nonzero) rolling average — the average of
the history with the current value pushed, as the source computes it —
and the sharpness is 0.9, the label is accent, regardless of the
staccato duration condition. -/
theorem C7_articulation_priority :
    (∀ (h : List ℚ) (d ex rms sharp : ℚ),
      rms > rollingAvgAfter h rms * 1.5 → sharp > 0.7 →
      (detectArticulation h d ex rms sharp).2 = ArticulationType.accent) ∧
    (∀ (h : List ℚ) (d ex rms sharp : ℚ),
      ¬(rms > rollingAvgAfter h rms * 1.5 ∧ sharp > 0.7) →
      d / ex < 0.5 → sharp > 0.6 →
      (detectArticulation h d ex rms sharp).2 = ArticulationType.staccato) ∧
    (∀ (h : List ℚ) (d ex rms sharp : ℚ),
      ¬(rms > rollingAvgAfter h rms * 1.5 ∧ sharp > 0.7) →
      ¬(d / ex < 0.5 ∧ sharp > 0.6) →
      sharp < 0.3 → d / ex ≥ 0.9 →
      (detectArticulation h d ex rms sharp).2 = ArticulationType.legato) ∧
    (∀ (h : List ℚ) (d ex rms sharp : ℚ),
      ¬(rms > rollingAvgAfter h rms * 1.5 ∧ sharp > 0.7) →
      ¬(d / ex < 0.5 ∧ sharp > 0.6) →
      ¬(sharp < 0.3 ∧ d / ex ≥ 0.9) →
      (detectArticulation h d ex rms sharp).2 = ArticulationType.normal) ∧
    (∀ (h : List ℚ) (d ex rms sharp : ℚ),
      rms = 2 * rollingAvgAfter h rms → 0 < rms → sharp = 0.9 →
      (detectArticulation h d ex rms sharp).2 = ArticulationType.accent) := by
  have haccent : ∀ (h : List ℚ) (d ex rms sharp : ℚ),
      rms > rollingAvgAfter h rms * 1.5 → sharp > 0.7 →
      (detectArticulation h d ex rms sharp).2 = ArticulationType.accent := by
    intro h d ex rms sharp h1 h2
    unfold detectArticulation
    simp only []
    rw [if_pos ⟨h1, h2⟩]
  refine ⟨haccent, ?_, ?_, ?_, ?_⟩
  · intro h d ex rms sharp h1 h2 h3
    unfold detectArticulation
    simp only []
    rw [if_neg h1, if_pos ⟨h2, h3⟩]
  · intro h d ex rms sharp h1 h2 h3 h4
    unfold detectArticulation
    simp only []
    rw [if_neg h1, if_neg h2, if_pos ⟨h3, h4⟩]
  · intro h d ex rms sharp h1 h2 h3
    unfold detectArticulation
    simp only []
    rw [if_neg h1, if_neg h2, if_neg h3]
  · intro h d ex rms sharp heq hpos hsharp
    refine haccent h d ex rms sharp ?_ (by rw [hsharp]; norm_num)
    linarith [heq, hpos]

/-- Claim C7 witness: history `[1, 1, 1]` with RMS 3 — twice the pushed
rolling average `(1+1+1+3)/4 = 3/2` — and sharpness 0.9 yields accent
even though the duration 10 of 48 also satisfies the staccato
condition. -/
theorem C7_articulation_priority_witness :
    ((10 : ℚ) / 48 < 0.5) ∧
    (detectArticulation [1, 1, 1] 10 48 3 (9/10)).2 = ArticulationType.accent :=
  ⟨by norm_num,
   C7_articulation_priority.2.2.2.2 [1, 1, 1] 10 48 3 (9/10)
    (by norm_num [rollingAvgAfter, pushHistory, HISTORY_SIZE])
    (by norm_num) (by norm_num)⟩

/-- Claim C7 counterexample: with an all-zero history and `rms = 0`
(which does equal twice the rolling average, both being zero) and
sharpness 0.9, the label is staccato, not accent — the accent test
`rms > 1.5 × avg` fails at zero. -/
theorem C7_zero_average_counterexample :
    (0 : ℚ) = 2 * rollingAvgAfter [0, 0] 0 ∧
    ((10 : ℚ) / 48 < 0.5) ∧
    (detectArticulation [0, 0] 10 48 0 (9/10)).2 = ArticulationType.staccato ∧
    ArticulationType.staccato ≠ ArticulationType.accent := by
  refine ⟨?_, by norm_num, ?_, by simp⟩
  · norm_num [rollingAvgAfter, pushHistory, HISTORY_SIZE]
  · norm_num [detectArticulation, rollingAvgAfter, pushHistory, HISTORY_SIZE]

/-- Folding `nearestStep` never increases the distance to the target
and ends at least as close as every list element. -/
theorem foldl_nearestStep_le (x : ℚ) :
    ∀ (l : List ℚ) (init : ℚ),
      |l.foldl (nearestStep x) init - x| ≤ |init - x| ∧
      ∀ d ∈ l, |l.foldl (nearestStep x) init - x| ≤ |d - x| := by
  intro l
  induction l with
  | nil => exact fun init => ⟨le_refl _, by simp⟩
  | cons c cs ih =>
    intro init
    have hstep : |nearestStep x init c - x| ≤ |init - x| ∧
        |nearestStep x init c - x| ≤ |c - x| := by
      unfold nearestStep
      by_cases hc : |c - x| < |init - x|
      · rw [if_pos hc]
        exact ⟨le_of_lt hc, le_refl _⟩
      · rw [if_neg hc]
        exact ⟨le_refl _, le_of_not_lt hc⟩
    have hih := ih (nearestStep x init c)
    refine ⟨le_trans hih.1 hstep.1, ?_⟩
    intro d hd
    rcases List.mem_cons.mp hd with hd | hd
    · subst hd
      exact le_trans hih.1 hstep.2
    · exact hih.2 d hd

/-- The fold result is the initial value or a member of the list. -/
theorem foldl_nearestStep_mem (x : ℚ) :
    ∀ (l : List ℚ) (init : ℚ),
      l.foldl (nearestStep x) init = init ∨ l.foldl (nearestStep x) init ∈ l := by
  intro l
  induction l with
  | nil => exact fun init => Or.inl rfl
  | cons c cs ih =>
    intro init
    rcases ih (nearestStep x init c) with h | h
    · rw [List.foldl_cons, h]
      unfold nearestStep
      by_cases hc : |c - x| < |init - x|
      · rw [if_pos hc]
        exact Or.inr (List.mem_cons_self c cs)
      · rw [if_neg hc]
        exact Or.inl rfl
    · exact Or.inr (List.mem_cons_of_mem c h)

/-- If folding does not strictly improve the distance, the accumulator
never moved. -/
theorem foldl_nearestStep_stay (x : ℚ) :
    ∀ (l : List ℚ) (init : ℚ),
      |l.foldl (nearestStep x) init - x| = |init - x| →
      l.foldl (nearestStep x) init = init := by
  intro l
  induction l with
  | nil => exact fun init _ => rfl
  | cons c cs ih =>
    intro init heq
    rw [List.foldl_cons] at heq ⊢
    by_cases hc : |c - x| < |init - x|
    · exfalso
      have hle := (foldl_nearestStep_le x cs (nearestStep x init c)).1
      unfold nearestStep at hle heq
      rw [if_pos hc] at hle heq
      exact absurd heq (ne_of_lt (lt_of_le_of_lt hle hc))
    · have hinit : nearestStep x init c = init := by
        unfold nearestStep
        rw [if_neg hc]
      rw [hinit] at heq ⊢
      exact ih init heq

/-- Over a strictly increasing candidate list the fold lands on the
first (hence smallest) distance minimizer: any list element at the
same distance is at least the result. -/
theorem foldl_nearestStep_first (x : ℚ) :
    ∀ (l : List ℚ) (init : ℚ),
      List.Pairwise (fun a b : ℚ => a < b) (init :: l) →
      ∀ d ∈ l, |d - x| = |l.foldl (nearestStep x) init - x| →
        l.foldl (nearestStep x) init ≤ d := by
  intro l
  induction l with
  | nil => intro init _ d hd; simp at hd
  | cons c cs ih =>
    intro init hsort d hd heq
    have hic : init < c := (List.pairwise_cons.mp hsort).1 c (List.mem_cons_self c cs)
    have hsort' : List.Pairwise (fun a b : ℚ => a < b) (c :: cs) :=
      (List.pairwise_cons.mp hsort).2
    rw [List.foldl_cons] at heq ⊢
    by_cases hc : |c - x| < |init - x|
    · have hinit : nearestStep x init c = c := by
        unfold nearestStep
        rw [if_pos hc]
      rw [hinit] at heq ⊢
      rcases List.mem_cons.mp hd with hd | hd
      · rw [hd] at heq ⊢
        exact le_of_eq (foldl_nearestStep_stay x cs c heq.symm)
      · exact ih c hsort' d hd heq
    · have hinit : nearestStep x init c = init := by
        unfold nearestStep
        rw [if_neg hc]
      rw [hinit] at heq ⊢
      rcases List.mem_cons.mp hd with hd | hd
      · rw [hd] at heq ⊢
        have hfold := (foldl_nearestStep_le x cs init).1
        have hde : |init - x| = |c - x| := le_antisymm (le_of_not_lt hc) (heq ▸ hfold)
        have hstay := foldl_nearestStep_stay x cs init (heq.symm.trans hde.symm)
        rw [hstay]
        exact le_of_lt hic
      · have hsort'' : List.Pairwise (fun a b : ℚ => a < b) (init :: cs) := by
          rw [List.pairwise_cons] at hsort ⊢
          exact ⟨fun b hb => hsort.1 b (List.mem_cons_of_mem c hb),
            (List.pairwise_cons.mp hsort.2).2⟩
        exact ih init hsort'' d hd heq

/-- Claim C8 (amended): `roundToNearestDuration` returns the canonical
duration `{16, 24, 36, 48, 72, 96, 144}` at minimum absolute distance
from the raw duration, ties favoring the smaller (so canonical values
are fixed points); `finalizeNote` feeds that snapped value to the
articulation detector but the event it logs keeps the raw duration
`currentTick - startTick`. -/
theorem C8_duration_snapping :
    (∀ t : ℚ,
      roundToNearestDuration t ∈ validDurations ∧
      (∀ d ∈ validDurations, |roundToNearestDuration t - t| ≤ |d - t|) ∧
      (∀ d ∈ validDurations, |d - t| = |roundToNearestDuration t - t| →
        roundToNearestDuration t ≤ d) ∧
      (t ∈ validDurations → roundToNearestDuration t = t)) ∧
    (∀ (tempo : ℚ) (s : QuantizerState) (e : ℚ) (p : Option ℚ) (r : ℚ)
        (st : ℤ) (pv : ℚ),
      s.noteStartTick = some st → s.currentPitch = some pv →
      (⌊e / msPerTick tempo⌋ : ℤ) ≠ s.currentTick →
      (p = none ∨ ¬(r > 0.02)) →
      ∃ ev : QEvent, (quantizerUpdate tempo s e p r).events = s.events ++ [ev] ∧
        QEvent.durationTicks ev = ⌊e / msPerTick tempo⌋ - st) := by
  constructor
  · intro t
    have hfold : roundToNearestDuration t
        = [24, 36, 48, 72, 96, 144].foldl (nearestStep t) 16 := rfl
    have hmem16 : ∀ r : ℚ, r = 16 ∨ r ∈ [(24 : ℚ), 36, 48, 72, 96, 144] →
        r ∈ validDurations := by
      intro r hr
      rcases hr with hr | hr
      · simp [validDurations, hr]
      · simp only [validDurations, List.mem_cons] at hr ⊢
        tauto
    have hle := foldl_nearestStep_le t [24, 36, 48, 72, 96, 144] 16
    have hsorted : List.Pairwise (fun a b : ℚ => a < b) [16, 24, 36, 48, 72, 96, 144] := by
      norm_num [List.pairwise_cons]
    have hmin : ∀ d ∈ validDurations, |roundToNearestDuration t - t| ≤ |d - t| := by
      intro d hd
      rw [hfold]
      simp only [validDurations, List.mem_cons, List.not_mem_nil, or_false] at hd
      rcases hd with hd | hd | hd | hd | hd | hd | hd
      all_goals subst hd
      · exact hle.1
      all_goals exact hle.2 _ (by norm_num)
    refine ⟨hmem16 _ (foldl_nearestStep_mem t _ 16), hmin, ?_, ?_⟩
    · intro d hd heq
      rw [hfold]
      simp only [validDurations, List.mem_cons, List.not_mem_nil, or_false] at hd
      rcases hd with hd | hd | hd | hd | hd | hd | hd
      all_goals subst hd
      · exact le_of_eq (foldl_nearestStep_stay t _ 16 (by rw [← hfold, ← heq]))
      all_goals
        exact foldl_nearestStep_first t [24, 36, 48, 72, 96, 144] 16 hsorted
          _ (by norm_num) (by rw [← hfold]; exact heq)
    · intro ht
      have h0 : |roundToNearestDuration t - t| ≤ 0 := by
        have := hmin t ht
        simpa using this
      have hz : roundToNearestDuration t - t = 0 :=
        abs_eq_zero.mp (le_antisymm h0 (abs_nonneg _))
      linarith [hz]
  · intro tempo s e p r st pv hst hpv hn hq
    unfold quantizerUpdate
    simp only [hn, if_neg hn]
    have hcond : ¬(p ≠ none ∧ r > 0.02) := by
      rcases hq with hq | hq
      · intro hcontra
        exact hcontra.1 hq
      · intro hcontra
        exact hq hcontra.2
    rw [if_neg hcond]
    simp only [hst]
    unfold finalizeNote
    simp only [hst, hpv]
    exact ⟨_, rfl, rfl⟩

/-- Claim C8 witness: the snapping clauses at the raw duration 50
(nearest canonical 48) and the raw-duration logging clause at a pending
note from tick 1 finalized at tick 51. -/
theorem C8_duration_snapping_witness :
    (roundToNearestDuration 50 ∈ validDurations ∧
      (∀ d ∈ validDurations, |roundToNearestDuration 50 - 50| ≤ |d - 50|) ∧
      (∀ d ∈ validDurations, |d - 50| = |roundToNearestDuration 50 - 50| →
        roundToNearestDuration 50 ≤ d) ∧
      ((50 : ℚ) ∈ validDurations → roundToNearestDuration 50 = 50)) ∧
    (∃ ev : QEvent,
      (quantizerUpdate 125 ⟨1, some 440, some 1, 1/10, [1/10], [], []⟩ 515 none 0).events
        = ([] : List QEvent) ++ [ev] ∧
      QEvent.durationTicks ev = ⌊(515 : ℚ) / msPerTick 125⌋ - 1) :=
  ⟨C8_duration_snapping.1 50,
   C8_duration_snapping.2 125 ⟨1, some 440, some 1, 1/10, [1/10], [], []⟩ 515 none 0 1 440
    rfl rfl (by norm_num [msPerTick]) (Or.inl rfl)⟩

/-- Claim C8 counterexample: a note held from tick 1 to tick 51 is
logged with the raw duration 50, which is not in the canonical set
(its snap would be 48) — finalized events do not carry canonical
durations. -/
theorem C8_raw_duration_counterexample :
    (runQuantizer 125 [⟨15, some 440, 1/10⟩, ⟨515, none, 0⟩]).events.map
        QEvent.durationTicks = [50] ∧
    ((50 : ℚ) ∉ validDurations) ∧
    roundToNearestDuration 50 = 48 := by
  refine ⟨?_, by norm_num [validDurations], ?_⟩
  · norm_num [runQuantizer, quantizerUpdate, finalizeNote, QuantizerState.init, msPerTick,
      roundToNearestDuration, nearestStep, validDurations, calculateOnsetSharpness,
      detectArticulation, rollingAvgAfter, pushHistory, HISTORY_SIZE, QEvent.durationTicks,
      Option.some_ne_none]
  · norm_num [roundToNearestDuration, nearestStep, validDurations]

/-- Claim C1 (amended): when the tick log is non-empty and at least one
expected-note tick carries a positive HNR, `assessPerformance` returns
`pitchAccuracy` as the 2-decimal percentage of
`(correctNoteTicks/totalNoteTicks) × difficultyMultiplier` (multiplier
1.0/1.025/1.05/1.075/1.1 for difficulty 1..5), `rhythmAccuracy` as the
percentage of `correctTicks/totalTicks`, and `overallScore` as
`min(100, 100 × (0.5 × pitchAccuracy + 0.3 × rhythmAccuracy + 0.2 ×
toneQuality))` rounded to 2 decimals; without a positive-HNR note tick
the accuracies are returned as zero instead. -/
theorem C1_accuracy_formulas (sqrtFn : ℚ → ℚ) (log : List TickState)
    (b1 b2 : ℚ) (score : Score) (difficulty : Option ℕ) (tempo : ℚ)
    (hne : log ≠ [])
    (hsp : noteStatesWithSpectral log ≠ []) :
    ((assessPerformance sqrtFn log b1 b2 score difficulty tempo).pitchAccuracy
      = roundPct (pitchAccuracyQ log (scoreMultiplierForDifficulty difficulty))) ∧
    ((assessPerformance sqrtFn log b1 b2 score difficulty tempo).rhythmAccuracy
      = roundPct (rhythmAccuracyQ log)) ∧
    ((assessPerformance sqrtFn log b1 b2 score difficulty tempo).toneQuality
      = roundPct (toneQualityOf sqrtFn log)) ∧
    ((assessPerformance sqrtFn log b1 b2 score difficulty tempo).overallScore
      = round2 (min 100 ((pitchAccuracyQ log (scoreMultiplierForDifficulty difficulty) * 0.5
          + rhythmAccuracyQ log * 0.3 + toneQualityOf sqrtFn log * 0.2) * 100))) ∧
    scoreMultiplierForDifficulty (some 1) = 1.0 ∧
    scoreMultiplierForDifficulty (some 2) = 1.025 ∧
    scoreMultiplierForDifficulty (some 3) = 1.05 ∧
    scoreMultiplierForDifficulty (some 4) = 1.075 ∧
    scoreMultiplierForDifficulty (some 5) = 1.1 := by
  have hlen : ¬(log.length = 0) := by simpa [List.length_eq_zero] using hne
  have hsplen : ¬((noteStatesWithSpectral log).length = 0) := by
    simpa [List.length_eq_zero] using hsp
  unfold assessPerformance
  rw [if_neg hlen, if_neg hsplen]
  exact ⟨rfl, rfl, rfl, rfl, rfl, rfl, rfl, rfl, rfl⟩

/-- Claim C1 witness: the formulas at a concrete one-entry log with a
positive HNR reading, difficulty 1, tempo 120. -/
theorem C1_accuracy_formulas_witness :
    ((assessPerformance sqrtZero logWithSpectral 0 0 scoreEmpty (some 1) 120).pitchAccuracy
      = roundPct (pitchAccuracyQ logWithSpectral (scoreMultiplierForDifficulty (some 1)))) ∧
    ((assessPerformance sqrtZero logWithSpectral 0 0 scoreEmpty (some 1) 120).overallScore
      = round2 (min 100 ((pitchAccuracyQ logWithSpectral (scoreMultiplierForDifficulty (some 1)) * 0.5
          + rhythmAccuracyQ logWithSpectral * 0.3 + toneQualityOf sqrtZero logWithSpectral * 0.2) * 100))) := by
  have h := C1_accuracy_formulas sqrtZero logWithSpectral 0 0 scoreEmpty (some 1) 120
    (by simp [logWithSpectral])
    (by norm_num [noteStatesWithSpectral, logWithSpectral, List.filter_cons, decide_eq_true_eq])
  exact ⟨h.1, h.2.2.2.1⟩

/-- Claim C1 counterexample: a non-empty log whose single entry is a
correctly played expected-note tick with zero HNR — the claimed
formulas give pitch accuracy 1 (and rhythm accuracy 1), yet
`assessPerformance` returns 0 for both and overall score 0, because the
no-spectral branch zeroes the accuracies. -/
theorem C1_zero_spectral_counterexample :
    (assessPerformance sqrtZero logNoSpectral 0 0 scoreEmpty (some 1) 120).pitchAccuracy = 0 ∧
    (assessPerformance sqrtZero logNoSpectral 0 0 scoreEmpty (some 1) 120).rhythmAccuracy = 0 ∧
    (assessPerformance sqrtZero logNoSpectral 0 0 scoreEmpty (some 1) 120).overallScore = 0 ∧
    pitchAccuracyQ logNoSpectral (scoreMultiplierForDifficulty (some 1)) = 1 ∧
    rhythmAccuracyQ logNoSpectral = 1 ∧
    ((0 : ℚ) ≠ 1) := by
  have hlen : ¬((logNoSpectral : List TickState).length = 0) := by simp [logNoSpectral]
  have hsp : (noteStatesWithSpectral logNoSpectral).length = 0 := by
    norm_num [noteStatesWithSpectral, logNoSpectral, List.filter_cons, decide_eq_true_eq]
  refine ⟨?_, ?_, ?_, ?_, ?_, by norm_num⟩
  · unfold assessPerformance
    rw [if_neg hlen, if_pos hsp]
  · unfold assessPerformance
    rw [if_neg hlen, if_pos hsp]
  · unfold assessPerformance
    rw [if_neg hlen, if_pos hsp]
  · norm_num [pitchAccuracyQ, noteTicksOf, correctNoteTicksOf, logNoSpectral,
      scoreMultiplierForDifficulty, List.filter_cons, decide_eq_true_eq]
  · norm_num [rhythmAccuracyQ, correctTicksOf, logNoSpectral, List.filter_cons,
      decide_eq_true_eq]

/-- Decomposition of a successful `find?`: the found element splits the
list, satisfies the predicate, and everything before it refutes it. -/
theorem find?_eq_some_split {α : Type} (p : α → Bool) :
    ∀ (l : List α) (a : α), l.find? p = some a →
      ∃ l1 l2, l = l1 ++ a :: l2 ∧ p a = true ∧ ∀ u ∈ l1, p u = false := by
  intro l
  induction l with
  | nil => intro a h; simp [List.find?] at h
  | cons c cs ih =>
    intro a h
    by_cases hp : p c = true
    · rw [List.find?_cons_of_pos _ hp] at h
      have hca : c = a := by injection h
      subst hca
      exact ⟨[], cs, rfl, hp, by simp⟩
    · have hp' : ¬p c := by simpa using hp
      rw [List.find?_cons_of_neg _ hp'] at h
      obtain ⟨l1, l2, hsplit, hpa, hl1⟩ := ih a h
      refine ⟨c :: l1, l2, by rw [hsplit, List.cons_append], hpa, ?_⟩
      intro u hu
      rcases List.mem_cons.mp hu with hu | hu
      · subst hu
        simpa using hp'
      · exact hl1 u hu

/-- Claim C6 (amended): an expected note window passes iff the strict
`[start, end)` window holds at least one entry and at least half of its
entries match the expected pitch with `rms > 0.02`; the detected onset
is the first log entry in the slack range `[start-48, end+48)` matching
with `rms > 0.02`; a window with no matching entry anywhere in the
slack range contributes no timing sample and never passes — but a
slack-range match alone does contribute one even when the strict window
has zero correct ticks. -/
theorem C6_note_window_matching (log : List TickState) (score : Score) (w : NoteWindow)
    (hw : w ∈ expectedNotesOf score) :
    ((w.startTick, windowPassed log w) ∈ noteResultsOf log score) ∧
    (windowPassed log w = true ↔
      0 < windowTotal log w ∧ windowTotal log w ≤ 2 * windowCorrect log w) ∧
    (∀ c : ℤ, firstCorrectTickOf log w = some c →
      ∃ l1 t l2, log = l1 ++ t :: l2 ∧ t.tick = c ∧
        (inSearchRange w t && isCorrectPitchFor w t) = true ∧
        ∀ u ∈ l1, (inSearchRange w u && isCorrectPitchFor w u) = false) ∧
    ((∀ t ∈ log, ¬(inSearchRange w t = true ∧ isCorrectPitchFor w t = true)) →
      windowTransition log w = none ∧ windowPassed log w = false) := by
  refine ⟨List.mem_map_of_mem _ hw, ?_, ?_, ?_⟩
  · unfold windowPassed windowAccuracy
    rw [decide_eq_true_eq]
    by_cases ht : 0 < windowTotal log w
    · rw [if_pos ht]
      have htq : (0 : ℚ) < (windowTotal log w : ℚ) := by exact_mod_cast ht
      rw [ge_iff_le, le_div_iff₀ htq]
      constructor
      · intro h
        refine ⟨ht, ?_⟩
        have : (windowTotal log w : ℚ) ≤ 2 * (windowCorrect log w : ℚ) := by linarith
        exact_mod_cast this
      · intro h
        have : (windowTotal log w : ℚ) ≤ 2 * (windowCorrect log w : ℚ) := by
          exact_mod_cast h.2
        linarith
    · rw [if_neg ht]
      constructor
      · intro h
        norm_num at h
      · intro h
        exact absurd h.1 ht
  · intro c hc
    unfold firstCorrectTickOf at hc
    obtain ⟨t0, hfind, htick⟩ := Option.map_eq_some'.mp hc
    obtain ⟨l1, l2, hsplit, hpt, hl1⟩ := find?_eq_some_split _ log t0 hfind
    exact ⟨l1, t0, l2, hsplit, htick, hpt, hl1⟩
  · intro hno
    have hfind : log.find? (fun t => inSearchRange w t && isCorrectPitchFor w t) = none := by
      rw [List.find?_eq_none]
      intro t ht
      rw [Bool.and_eq_true]
      exact fun hand => hno t ht ⟨hand.1, hand.2⟩
    constructor
    · unfold windowTransition firstCorrectTickOf
      rw [hfind]
      rfl
    · have hc0 : windowCorrect log w = 0 := by
        unfold windowCorrect
        rw [List.length_eq_zero, List.filter_eq_nil_iff]
        intro t ht
        have hmem := List.mem_filter.mp ht
        have hts : t ∈ log := hmem.1
        have hsearch : inSearchRange w t = true := by
          have hs := hmem.2
          rw [Bool.and_eq_true] at hs
          exact hs.1
        intro hcp
        exact hno t hts ⟨hsearch, hcp⟩
      unfold windowPassed windowAccuracy
      rw [hc0]
      by_cases ht : 0 < windowTotal log w
      · rw [if_pos ht]
        norm_num
      · rw [if_neg ht]
        norm_num

/-- Claim C6 witness: the matching clauses at the one-note score and a
log whose single entry sits inside the strict window with the expected
pitch. -/
theorem C6_note_window_matching_witness :
    ((NoteWindow.startTick ⟨0, 48, 60⟩, windowPassed logWithSpectral ⟨0, 48, 60⟩)
      ∈ noteResultsOf logWithSpectral scoreOneNote) ∧
    (windowPassed logWithSpectral ⟨0, 48, 60⟩ = true ↔
      0 < windowTotal logWithSpectral ⟨0, 48, 60⟩ ∧
      windowTotal logWithSpectral ⟨0, 48, 60⟩ ≤ 2 * windowCorrect logWithSpectral ⟨0, 48, 60⟩) := by
  have h := C6_note_window_matching logWithSpectral scoreOneNote ⟨0, 48, 60⟩
    (by norm_num [expectedNotesOf, expectedNotesAux, scoreEvents, scoreOneNote, midC,
      pitchToMidi, stepBase, durToTicks])
  exact ⟨h.1, h.2.1⟩

/-- Claim C6 counterexample: a window `[0, 48)` of the one-note score
with a single log entry at tick −10 — inside the slack search range but
outside the strict window: zero strict-window correct ticks and a
failed window, yet the timing-offset list gets the sample −10, which
`assessPerformance` reports as `avgOffset = −10`. -/
theorem C6_slack_onset_counterexample :
    windowCorrect logEarlyOnset ⟨0, 48, 60⟩ = 0 ∧
    windowPassed logEarlyOnset ⟨0, 48, 60⟩ = false ∧
    noteTransitionsOf logEarlyOnset scoreOneNote = [-10] ∧
    (assessPerformance sqrtZero logEarlyOnset 0 0 scoreOneNote (some 1) 120).avgOffset = -10 ∧
    ([(-10 : ℤ)] ≠ ([] : List ℤ)) := by
  have hwin : expectedNotesOf scoreOneNote = [⟨0, 48, 60⟩] := by
    norm_num [expectedNotesOf, expectedNotesAux, scoreEvents, scoreOneNote, midC,
      pitchToMidi, stepBase, durToTicks]
  have hfc : firstCorrectTickOf logEarlyOnset ⟨0, 48, 60⟩ = some (-10) := by
    unfold firstCorrectTickOf logEarlyOnset
    rw [List.find?_cons_of_pos _
      (by norm_num [inSearchRange, isCorrectPitchFor, SEARCH_WINDOW])]
    rfl
  have hone : windowTransition logEarlyOnset ⟨0, 48, 60⟩ = some (-10) := by
    unfold windowTransition
    rw [hfc]
    norm_num
  have htrans : noteTransitionsOf logEarlyOnset scoreOneNote = [-10] := by
    rw [noteTransitionsOf, hwin]
    simp [List.filterMap_cons, hone]
  refine ⟨?_, ?_, htrans, ?_, by simp⟩
  · norm_num [windowCorrect, strictTicksOf, inSearchRange, isCorrectPitchFor,
      logEarlyOnset, SEARCH_WINDOW, List.filter_cons, decide_eq_true_eq,
      Bool.and_eq_true]
  · norm_num [windowPassed, windowAccuracy, windowTotal, windowCorrect, strictTicksOf,
      inSearchRange, isCorrectPitchFor, logEarlyOnset, SEARCH_WINDOW, List.filter_cons,
      decide_eq_true_eq, Bool.and_eq_true]
  · have hlen : ¬((logEarlyOnset : List TickState).length = 0) := by simp [logEarlyOnset]
    have hsp : (noteStatesWithSpectral logEarlyOnset).length = 0 := by
      norm_num [noteStatesWithSpectral, logEarlyOnset, List.filter_cons, decide_eq_true_eq]
    unfold assessPerformance
    rw [if_neg hlen, if_pos hsp]
    show avgOffsetOf (noteTransitionsOf logEarlyOnset scoreOneNote) = -10
    rw [htrans]
    norm_num [avgOffsetOf]

end Sightreed
